import Mathlib

/-!
Verification of the record-reconciliation engine and UI helper functions of
the cps-energy-tools repository.

The repository ships a React/TypeScript frontend (under frontend/src) and a
Python backend.  The backend package that implements the pole-comparison
reconciliation engine (Normalizer, Identifier Resolver, Matcher, Discrepancy
Evaluator, Report Builder) is not part of the source tree available here:
only its HTTP callers (frontend pages) and its documentation are.  The
engine is therefore modelled from the specification, definition by
definition; each such definition carries a doc comment starting with
"Modelled from the spec:".  The frontend helpers (cover-sheet station
formatting, map centering) are embedded directly from the TypeScript source.

Conventions of the embedding:
* JavaScript / Python strings are modelled as Lean String values; where
  character-level reasoning is needed (split / join / trim) the functions
  work on List Char, the character sequence of the string.
* Numbers (loading percentages, thresholds, coordinates) are modelled as
  rationals; the source languages use IEEE doubles, whose rounding behaviour
  is not the subject of any claim here.
* Fallible steps return Option.
-/

namespace CPS

/-! ## Basic character-list utilities (model of JS/Python string ops) -/

/-- Whitespace test on a character, used by trimming and word splitting. -/
def isWsChar (c : Char) : Bool := c.isWhitespace

/-- Model of string trim on a character list: drop leading and trailing
whitespace. -/
def trimChars (s : List Char) : List Char :=
  ((s.dropWhile isWsChar).reverse.dropWhile isWsChar).reverse

/-- Lower-casing, character by character. -/
def lowerChars (s : List Char) : List Char := s.map Char.toLower

/-- Split a character list into its maximal whitespace-free words. -/
def wordsOf (s : List Char) : List (List Char) :=
  let step := fun (acc : List (List Char) × List Char) (c : Char) =>
    if isWsChar c then
      (if acc.2.isEmpty then acc.1 else acc.1 ++ [acc.2.reverse], ([] : List Char))
    else (acc.1, c :: acc.2)
  let r := s.foldl step ([], [])
  if r.2.isEmpty then r.1 else r.1 ++ [r.2.reverse]

/-! ## Data model (spec section 3) -/

/-- Modelled from the spec: the side a record came from. -/
inductive SourceKind
| survey
| analysis
deriving DecidableEq

/-- Modelled from the spec: the fixed match-key strategies. -/
inductive Strategy
| normalizedId
| numericId
| secondaryId
deriving DecidableEq

/-- Modelled from the spec: the fixed strategy order
[normalizedId, numericId, secondaryId]. -/
def strategies : List Strategy := [.normalizedId, .numericId, .secondaryId]

/-- Modelled from the spec: issue kinds of the comparison result. -/
inductive IssueKind
| SPEC_MISMATCH
| LOADING_DELTA_EXISTING
| LOADING_DELTA_FINAL
| MISSING_IN_SURVEY
| MISSING_IN_ANALYSIS
| DUPLICATE
deriving DecidableEq

/-- Modelled from the spec: an issue; the detail field carries the delta
magnitude for loading-delta issues and nothing for the other kinds.  The
severity field of the spec carries no information relevant to any property
proved here and is omitted. -/
structure Issue where
  kind : IssueKind
  detail : Option ℚ
deriving DecidableEq

/-- Modelled from the spec: canonical representation of one pole from one
source (spec section 3, PoleRecord). -/
structure PoleRecord where
  source : SourceKind
  rawId : String
  normalizedId : String
  numericId : Option Nat
  secondaryId : Option String
  specification : String
  existingLoadingPct : Option ℚ
  finalLoadingPct : Option ℚ
  notes : String
deriving DecidableEq

/-! ## Normalizer (spec section 4.1) -/

/-- Modelled from the spec: a raw numeric cell of a source row: absent,
present but unparseable text, or a parsed numeric value. -/
inductive RawNum
| missing
| unparseable
| val (q : ℚ)
deriving DecidableEq

/-- Modelled from the spec: a raw source row as handed to the Normalizer by
the external parsing collaborators. -/
structure RawRecord where
  id : String
  secondary : Option String
  spec : String
  existingLoad : RawNum
  finalLoad : RawNum
  notes : String
deriving DecidableEq

/-- Modelled from the spec: loading-percentage rescale rule: a value whose
magnitude is at most 1.0 is multiplied by 100, values above 1.0 pass through
unchanged. -/
def rescale (q : ℚ) : ℚ := if |q| ≤ 1 then 100 * q else q

/-- Modelled from the spec: numeric normalization: null or unparseable
fields become null, never zero; parsed values are rescaled. -/
def normLoad : RawNum → Option ℚ
| .missing => none
| .unparseable => none
| .val q => some (rescale q)

/-- Modelled from the spec: derivation of the normalizedId: lowercase,
whitespace-trimmed, with separator punctuation (dashes, underscores)
stripped; rawId itself is never mutated. -/
def mkNormalizedId (rawId : String) : String :=
  String.mk ((trimChars (lowerChars rawId.toList)).filter (fun c => c != '-' && c != '_'))

/-- Digit run to number, most significant digit first. -/
def digitsToNat (ds : List Char) : Nat :=
  ds.foldl (fun n c => 10 * n + (c.toNat - ('0').toNat)) 0

/-- The longest trailing run of digits of a character list. -/
def trailingDigits (s : List Char) : List Char :=
  (s.reverse.takeWhile (fun c => c.isDigit)).reverse

/-- Modelled from the spec: numericId extraction: the longest trailing run
of digits of rawId, absent if none found. -/
def mkNumericId (rawId : String) : Option Nat :=
  let ds := trailingDigits rawId.toList
  if ds.isEmpty then none else some (digitsToNat ds)

/-- Modelled from the spec: the Normalizer.  A row whose identifier is empty
(hence also yields no numeric fallback) fails normalization and is dropped;
every other row becomes a PoleRecord with derived keys and rescaled loading
fields. -/
def normalize (kind : SourceKind) (r : RawRecord) : Option PoleRecord :=
  if r.id = "" then none
  else some
    { source := kind
      rawId := r.id
      normalizedId := mkNormalizedId r.id
      numericId := mkNumericId r.id
      secondaryId := r.secondary
      specification := r.spec
      existingLoadingPct := normLoad r.existingLoad
      finalLoadingPct := normLoad r.finalLoad
      notes := r.notes }

/-! ## Discrepancy Evaluator (spec section 4.4) -/

/-- Modelled from the spec: specification strings are compared
case-insensitively after whitespace normalization (words rejoined by single
spaces). -/
def normSpec (s : String) : String :=
  String.mk (List.intercalate [' '] (wordsOf (lowerChars s.toList)))

/-- Modelled from the spec: a loading-delta issue of the given kind is
emitted exactly when both sides are non-null and the absolute difference
exceeds the threshold; the delta magnitude is stored in the detail field. -/
def deltaIssue (k : IssueKind) (a b : Option ℚ) (t : ℚ) : List Issue :=
  match a, b with
  | some x, some y => if t < |x - y| then [⟨k, some |x - y|⟩] else []
  | _, _ => []

/-- Modelled from the spec: the Discrepancy Evaluator on a matched pair:
a SPEC_MISMATCH when the normalized specifications differ, then the two
loading-delta checks. -/
def evaluate (s a : PoleRecord) (t : ℚ) : List Issue :=
  (if normSpec s.specification ≠ normSpec a.specification
    then [⟨.SPEC_MISMATCH, none⟩] else [])
  ++ deltaIssue .LOADING_DELTA_EXISTING s.existingLoadingPct a.existingLoadingPct t
  ++ deltaIssue .LOADING_DELTA_FINAL s.finalLoadingPct a.finalLoadingPct t

/-- A loading comparison is incomplete when a side of it is null. -/
def incompleteField (a b : Option ℚ) : Bool := a.isNone || b.isNone

/-- Modelled from the spec: a matched pair is recorded as incomplete in the
summary when either loading comparison has a null side. -/
def pairIncomplete (s a : PoleRecord) : Bool :=
  incompleteField s.existingLoadingPct a.existingLoadingPct
  || incompleteField s.finalLoadingPct a.finalLoadingPct

/-- Modelled from the spec: the default comparison threshold, in percent. -/
def defaultThreshold : ℚ := 5

/-! ## Identifier Resolver (spec section 4.2) -/

/-- Modelled from the spec: a match-key value: normalizedId and secondaryId
keys are strings, numericId keys are numbers.  Keys are only ever compared
within a single strategy. -/
inductive KeyV
| str (s : String)
| num (n : Nat)
deriving DecidableEq

/-- Modelled from the spec: the Identifier Resolver: the key a record
yields under a strategy, if any.  The normalizedId key is always present;
the numericId and secondaryId keys are present when derivable. -/
def keyOf : Strategy → PoleRecord → Option KeyV
| .normalizedId, r => some (.str r.normalizedId)
| .numericId, r => r.numericId.map .num
| .secondaryId, r => r.secondaryId.map .str

/-! ## Matcher (spec section 4.3)

The matcher state keeps the pairs formed so far (each as the indexed survey
record, the indexed analysis record, and the strategy that paired them) and
the indices flagged as duplicates on each side.  A record is consumed when
it is a member of a formed pair.  One pass per strategy is run, in the
fixed strategy order.

Within one pass, candidate sets of distinct key values are disjoint (a
record has at most one key per strategy), so the spec's per-record
iteration with in-place consumption is equivalent to the declarative
formulation used here: all decisions of a pass are taken against the
pass-initial live sets and then applied at once. -/

/-- Pair each element of a list with its position, starting at n. -/
def idxFrom (n : Nat) : List α → List (Nat × α)
| [] => []
| a :: l => (n, a) :: idxFrom (n + 1) l

/-- Pair each element of a list with its position. -/
def withIdx (l : List α) : List (Nat × α) := idxFrom 0 l

/-- Modelled from the spec: matcher bookkeeping, threaded through the
strategy passes. -/
structure MatchState where
  pairs : List ((Nat × PoleRecord) × (Nat × PoleRecord) × Strategy)
  dupS : List Nat
  dupA : List Nat
deriving DecidableEq

/-- The survey indices consumed by the pairs formed so far. -/
def MatchState.consumedS (st : MatchState) : List Nat :=
  st.pairs.map (fun pr => pr.1.1)

/-- The analysis indices consumed by the pairs formed so far. -/
def MatchState.consumedA (st : MatchState) : List Nat :=
  st.pairs.map (fun pr => pr.2.1.1)

/-- The still-unmatched part of an indexed record list. -/
def liveOn (idx : List (Nat × PoleRecord)) (consumed : List Nat) :
    List (Nat × PoleRecord) :=
  idx.filter (fun p => !(consumed.contains p.1))

/-- The records of a list sharing a given key under a strategy (the key
index of the spec, read at one key value). -/
def candOf (stg : Strategy) (k : KeyV) (l : List (Nat × PoleRecord)) :
    List (Nat × PoleRecord) :=
  l.filter (fun p => decide (keyOf stg p.2 = some k))

/-- Modelled from the spec: the pairing decision for one live survey record
in one pass: look up the records sharing its key; pair exactly when both
sides have a single candidate (the record itself on the survey side). -/
def pairAt (stg : Strategy) (liveS liveA : List (Nat × PoleRecord))
    (p : Nat × PoleRecord) :
    Option ((Nat × PoleRecord) × (Nat × PoleRecord) × Strategy) :=
  match keyOf stg p.2 with
  | none => none
  | some k =>
    match candOf stg k liveS, candOf stg k liveA with
    | [_], [q] => some (p, q, stg)
    | _, _ => none

/-- Modelled from the spec: survey-side duplicate flag: the record's key is
shared by more than one live survey record. -/
def dupFlagS (stg : Strategy) (liveS : List (Nat × PoleRecord))
    (p : Nat × PoleRecord) : Bool :=
  match keyOf stg p.2 with
  | none => false
  | some k => decide (1 < (candOf stg k liveS).length)

/-- Modelled from the spec: analysis-side duplicate flag: the record's key
is looked up by some live survey record and is shared by more than one live
analysis record. -/
def dupFlagA (stg : Strategy) (liveS liveA : List (Nat × PoleRecord))
    (q : Nat × PoleRecord) : Bool :=
  match keyOf stg q.2 with
  | none => false
  | some k =>
    liveS.any (fun p => decide (keyOf stg p.2 = some k))
      && decide (1 < (candOf stg k liveA).length)

/-- Modelled from the spec: one matcher pass at one strategy: form every
unambiguous singleton pair among the still-unmatched records, and flag the
members of every ambiguous key group as duplicates on the side(s) with more
than one candidate; flagged records are not consumed and stay eligible for
later strategies. -/
def passStep (surveyI analysisI : List (Nat × PoleRecord)) (stg : Strategy)
    (st : MatchState) : MatchState :=
  let liveS := liveOn surveyI st.consumedS
  let liveA := liveOn analysisI st.consumedA
  { pairs := st.pairs ++ liveS.filterMap (pairAt stg liveS liveA)
    dupS := st.dupS ++ (liveS.filter (dupFlagS stg liveS)).map (fun p => p.1)
    dupA := st.dupA ++ (liveA.filter (dupFlagA stg liveS liveA)).map (fun p => p.1) }

/-- Modelled from the spec: the full matcher run: the three strategy passes
in the fixed order, from the empty state. -/
def matchAll (survey analysis : List PoleRecord) : MatchState :=
  strategies.foldl (fun st stg => passStep (withIdx survey) (withIdx analysis) stg st)
    ⟨[], [], []⟩

/-! ## Reconciliation Report Builder (spec sections 4.5 and 3) -/

/-- Modelled from the spec: one reconciled unit.  Matched pairs carry both
indexed records, the strategy that paired them and the evaluator's issues;
unmatched pairs carry one record, no strategy and the corresponding
missing-side issue. -/
structure ComparisonPair where
  survey : Option (Nat × PoleRecord)
  analysis : Option (Nat × PoleRecord)
  matchedBy : Option Strategy
  issues : List Issue
deriving DecidableEq

/-- Modelled from the spec: the reconciliation result: the ordered pairs,
the per-side duplicate lists (kept here as indexed records; the rawId lists
of the spec are their rawId projections), the threshold used, and the
summary's incomplete-pair count. -/
structure ReconciliationResult where
  pairs : List ComparisonPair
  dupSurvey : List (Nat × PoleRecord)
  dupAnalysis : List (Nat × PoleRecord)
  threshold : ℚ
  incomplete : Nat
deriving DecidableEq

/-- Modelled from the spec: the Report Builder over normalized record
lists: matched pairs first, then the unmatched survey records as
MISSING_IN_ANALYSIS pairs, then the unmatched analysis records as
MISSING_IN_SURVEY pairs; records flagged duplicate and never consumed form
the duplicate lists and do not become pairs (spec section 8,
completeness). -/
def buildResult (survey analysis : List PoleRecord) (t : ℚ) :
    ReconciliationResult :=
  let st := matchAll survey analysis
  let liveS := liveOn (withIdx survey) st.consumedS
  let liveA := liveOn (withIdx analysis) st.consumedA
  { pairs :=
      st.pairs.map (fun pr =>
        ⟨some pr.1, some pr.2.1, some pr.2.2, evaluate pr.1.2 pr.2.1.2 t⟩)
      ++ (liveS.filter (fun p => !(st.dupS.contains p.1))).map (fun p =>
        ⟨some p, none, none, [⟨.MISSING_IN_ANALYSIS, none⟩]⟩)
      ++ (liveA.filter (fun p => !(st.dupA.contains p.1))).map (fun p =>
        ⟨none, some p, none, [⟨.MISSING_IN_SURVEY, none⟩]⟩)
    dupSurvey := liveS.filter (fun p => st.dupS.contains p.1)
    dupAnalysis := liveA.filter (fun p => st.dupA.contains p.1)
    threshold := t
    incomplete := (st.pairs.filter (fun pr => pairIncomplete pr.1.2 pr.2.1.2)).length }

/-- Modelled from the spec: the whole engine: normalization (dropping rows
that fail it), matching, evaluation, report building. -/
def reconcile (surveyRaw analysisRaw : List RawRecord) (t : ℚ) :
    ReconciliationResult :=
  buildResult (surveyRaw.filterMap (normalize .survey))
    (analysisRaw.filterMap (normalize .analysis)) t

/-- Total number of issues of a kind across the pairs of a result. -/
def countKind (res : ReconciliationResult) (k : IssueKind) : Nat :=
  (res.pairs.map (fun c => (c.issues.filter (fun i => i.kind == k)).length)).sum

/-- The total number of loading-delta issues of a result. -/
def deltaCount (res : ReconciliationResult) : Nat :=
  countKind res .LOADING_DELTA_EXISTING + countKind res .LOADING_DELTA_FINAL

/-- Whether a strategy yields non-null equal key values on both records. -/
def keyAgreeB (stg : Strategy) (s a : PoleRecord) : Bool :=
  match keyOf stg s, keyOf stg a with
  | some k, some k' => k == k'
  | _, _ => false

/-- The first strategy, in the fixed order, yielding non-null equal key
values on both records, if any. -/
def firstAgree (s a : PoleRecord) : Option Strategy :=
  strategies.find? (fun stg => keyAgreeB stg s a)

/-! ## Cover-sheet station formatting, embedded from
frontend/src/pages (CoverSheet page).

The JavaScript strings are embedded as character lists; JS
s.split(sep).slice(1).join(sep) with the one-character separator
is splitDash / List.drop 1 / List.intercalate. -/

/-- Model of the JS split on the dash character: s.split(0x2d). -/
def splitDash : List Char → List (List Char)
| [] => [[]]
| c :: rest =>
  if c = '-' then [] :: splitDash rest
  else
    match splitDash rest with
    | [] => [c] :: []
    | w :: ws => (c :: w) :: ws

/-- Embedded from the source (PolesTable, line 198):
fmtStation of the poles-table display: a non-empty station id containing a
dash loses everything up to and including the first dash (split on dash,
drop the first part, rejoin with dash); otherwise the id passes through. -/
def fmtStationTable (s : List Char) : List Char :=
  if s ≠ [] ∧ '-' ∈ s then List.intercalate ['-'] ((splitDash s).drop 1) else s

/-- Embedded from the source (coverSheetToText, line 242): the identical
station formatter used for the clipboard / download text. -/
def fmtStationCoverText (s : List Char) : List Char :=
  if s ≠ [] ∧ '-' ∈ s then List.intercalate ['-'] ((splitDash s).drop 1) else s

/-- Embedded from the source (copyPoleRow, line 268): the identical station
formatter used by the per-row copy helper. -/
def fmtStationCopyRow (s : List Char) : List Char :=
  if s ≠ [] ∧ '-' ∈ s then List.intercalate ['-'] ((splitDash s).drop 1) else s

/-! ## Map centering, embedded from frontend/src/pages/MRRTool.tsx -/

/-- A pole preview as consumed by getMapCenter: only the coordinate fields
matter.  Numbers are modelled as rationals; an absent field is none. -/
structure PolePreview where
  lat : Option ℚ
  lon : Option ℚ
deriving DecidableEq

/-- JS truthiness of a numeric field: false for an absent field and for
zero, true otherwise.  (JS NaN, also falsy, has no rational counterpart
and does not occur in the claims.) -/
def truthyNum : Option ℚ → Bool
| none => false
| some q => q != 0

/-- The fixed San Antonio default center of MRRTool.tsx line 213. -/
def defaultCenter : ℚ × ℚ := (2942/100, -9849/100)

/-- Embedded from the source (MRRTool.tsx lines 211-217): getMapCenter
filters the poles to those with truthy lat and lon, returns the default
center when none qualifies, and otherwise the averages of the coordinates
(JS reduce-sum divided by the count). -/
def getMapCenter (poles : List PolePreview) : ℚ × ℚ :=
  let coords := poles.filter (fun p => truthyNum p.lat && truthyNum p.lon)
  if coords.length = 0 then defaultCenter
  else
    (coords.foldl (fun sum p => sum + p.lat.getD 0) 0 / (coords.length : ℚ),
     coords.foldl (fun sum p => sum + p.lon.getD 0) 0 / (coords.length : ℚ))

/-! ## Concrete scenario fixtures (spec section 8) -/

/-- A raw row with the given identifier and loading cells. -/
def rawOf (id : String) (sp : String) (e f : RawNum) : RawRecord :=
  ⟨id, none, sp, e, f, ""⟩

/-- Scenario A survey side: one pole P-410620. -/
def surveyA : List PoleRecord :=
  [rawOf "P-410620" "40-3" .missing .missing].filterMap (normalize .survey)

/-- Scenario A analysis side: one pole 410620. -/
def analysisA : List PoleRecord :=
  [rawOf "410620" "40-3" .missing .missing].filterMap (normalize .analysis)

/-- Scenario B survey side: one pole 410621. -/
def surveyB : List PoleRecord :=
  [rawOf "410621" "40-3" .missing .missing].filterMap (normalize .survey)

/-- Scenario B analysis side: two poles sharing rawId 410621. -/
def analysisB : List PoleRecord :=
  [rawOf "410621" "40-3" .missing .missing,
   rawOf "410621" "40-3" .missing .missing].filterMap (normalize .analysis)

/-- Scenario C survey record: existing loading 65.0. -/
def recCsurvey : PoleRecord :=
  ⟨.survey, "P1", "p1", some 1, none, "40-3 Southern Pine", some 65, none, ""⟩

/-- Scenario C analysis record: existing loading 71.2. -/
def recCanalysis : PoleRecord :=
  ⟨.analysis, "P1", "p1", some 1, none, "40-3 Southern Pine", some (712/10), none, ""⟩

/-- Scenario D survey record: specification Class 3 Wood. -/
def recDsurvey : PoleRecord :=
  ⟨.survey, "P2", "p2", none, none, "Class 3 Wood", none, none, ""⟩

/-- Scenario D analysis record: specification class 3 wood. -/
def recDanalysis : PoleRecord :=
  ⟨.analysis, "P2", "p2", none, none, "class 3 wood", none, none, ""⟩

/-- Matcher state invariant: every formed pair consists of an indexed
survey record and an indexed analysis record of the inputs whose keys under
the pairing strategy exist and agree, and no index is consumed twice on
either side. -/
def Inv (surveyI analysisI : List (Nat × PoleRecord)) (st : MatchState) : Prop :=
  (∀ pr ∈ st.pairs, pr.1 ∈ surveyI ∧ pr.2.1 ∈ analysisI ∧
    ∃ k, keyOf pr.2.2 pr.1.2 = some k ∧ keyOf pr.2.2 pr.2.1.2 = some k) ∧
  st.consumedS.Nodup ∧ st.consumedA.Nodup

/-- The survey-index slot of every pair of a result, in order. -/
def surveySlots (res : ReconciliationResult) : List (Option Nat) :=
  res.pairs.map (fun c => c.survey.map Prod.fst)

/-- The analysis-index slot of every pair of a result, in order. -/
def analysisSlots (res : ReconciliationResult) : List (Option Nat) :=
  res.pairs.map (fun c => c.analysis.map Prod.fst)

/-! ## Evaluator lemmas -/

theorem filter_deltaIssue_self (k : IssueKind) (a b : Option ℚ) (t : ℚ) :
    (deltaIssue k a b t).filter (fun i => i.kind == k) = deltaIssue k a b t := by
  unfold deltaIssue
  cases a <;> cases b <;> simp

theorem filter_deltaIssue_ne {k k' : IssueKind} (h : ¬ k' = k) (a b : Option ℚ) (t : ℚ) :
    (deltaIssue k' a b t).filter (fun i => i.kind == k) = [] := by
  unfold deltaIssue
  cases a <;> cases b <;> simp [h]

theorem evaluate_filter_spec (s a : PoleRecord) (t : ℚ) :
    (evaluate s a t).filter (fun i => i.kind == IssueKind.SPEC_MISMATCH) =
      if normSpec s.specification ≠ normSpec a.specification
        then [⟨.SPEC_MISMATCH, none⟩] else [] := by
  unfold evaluate
  rw [List.filter_append, List.filter_append,
    filter_deltaIssue_ne (by decide), filter_deltaIssue_ne (by decide)]
  by_cases hc : normSpec s.specification = normSpec a.specification <;> simp [hc]

theorem evaluate_filter_existing (s a : PoleRecord) (t x y : ℚ)
    (hx : s.existingLoadingPct = some x) (hy : a.existingLoadingPct = some y) :
    (evaluate s a t).filter (fun i => i.kind == IssueKind.LOADING_DELTA_EXISTING) =
      if t < |x - y| then [⟨.LOADING_DELTA_EXISTING, some |x - y|⟩] else [] := by
  unfold evaluate
  rw [List.filter_append, List.filter_append, filter_deltaIssue_self,
    filter_deltaIssue_ne (by decide)]
  have hspec : ((if normSpec s.specification ≠ normSpec a.specification
      then [(⟨.SPEC_MISMATCH, none⟩ : Issue)] else []).filter
        (fun i => i.kind == IssueKind.LOADING_DELTA_EXISTING)) = [] := by
    split <;> simp
  rw [hspec]
  unfold deltaIssue
  rw [hx, hy]
  simp

theorem evaluate_filter_final (s a : PoleRecord) (t x y : ℚ)
    (hx : s.finalLoadingPct = some x) (hy : a.finalLoadingPct = some y) :
    (evaluate s a t).filter (fun i => i.kind == IssueKind.LOADING_DELTA_FINAL) =
      if t < |x - y| then [⟨.LOADING_DELTA_FINAL, some |x - y|⟩] else [] := by
  unfold evaluate
  rw [List.filter_append, List.filter_append, filter_deltaIssue_self,
    filter_deltaIssue_ne (by decide)]
  have hspec : ((if normSpec s.specification ≠ normSpec a.specification
      then [(⟨.SPEC_MISMATCH, none⟩ : Issue)] else []).filter
        (fun i => i.kind == IssueKind.LOADING_DELTA_FINAL)) = [] := by
    split <;> simp
  rw [hspec]
  unfold deltaIssue
  rw [hx, hy]
  simp

theorem evaluate_filter_existing_none (s a : PoleRecord) (t : ℚ)
    (h : s.existingLoadingPct = none ∨ a.existingLoadingPct = none) :
    (evaluate s a t).filter (fun i => i.kind == IssueKind.LOADING_DELTA_EXISTING) = [] := by
  unfold evaluate
  rw [List.filter_append, List.filter_append, filter_deltaIssue_self,
    filter_deltaIssue_ne (by decide)]
  have hspec : ((if normSpec s.specification ≠ normSpec a.specification
      then [(⟨.SPEC_MISMATCH, none⟩ : Issue)] else []).filter
        (fun i => i.kind == IssueKind.LOADING_DELTA_EXISTING)) = [] := by
    split <;> simp
  rw [hspec]
  unfold deltaIssue
  rcases h with h | h <;> rw [h] <;> simp

theorem evaluate_filter_final_none (s a : PoleRecord) (t : ℚ)
    (h : s.finalLoadingPct = none ∨ a.finalLoadingPct = none) :
    (evaluate s a t).filter (fun i => i.kind == IssueKind.LOADING_DELTA_FINAL) = [] := by
  unfold evaluate
  rw [List.filter_append, List.filter_append, filter_deltaIssue_self,
    filter_deltaIssue_ne (by decide)]
  have hspec : ((if normSpec s.specification ≠ normSpec a.specification
      then [(⟨.SPEC_MISMATCH, none⟩ : Issue)] else []).filter
        (fun i => i.kind == IssueKind.LOADING_DELTA_FINAL)) = [] := by
    split <;> simp
  rw [hspec]
  unfold deltaIssue
  rcases h with h | h <;> rw [h] <;> simp

theorem incomplete_buildResult (survey analysis : List PoleRecord) (t : ℚ) :
    (buildResult survey analysis t).incomplete =
      (buildResult survey analysis t).pairs.countP (fun c =>
        match c.survey, c.analysis with
        | some p, some q => pairIncomplete p.2 q.2
        | _, _ => false) := by
  simp only [buildResult]
  rw [List.countP_append, List.countP_append, List.countP_map, List.countP_map,
    List.countP_map, ← List.countP_eq_length_filter]
  simp only [Function.comp_def]
  simp

/-! ## Claim theorems: Discrepancy Evaluator and Normalizer -/

/-- C3: for every matched pair, a SPEC_MISMATCH issue is produced iff the
two specification strings differ after case-folding and whitespace
normalization; in particular survey spec "Class 3 Wood" versus analysis
spec "class 3 wood" produces no SPEC_MISMATCH. -/
theorem spec_mismatch_characterization :
    (∀ (s a : PoleRecord) (t : ℚ),
      (evaluate s a t).filter (fun i => i.kind == IssueKind.SPEC_MISMATCH) =
        if normSpec s.specification ≠ normSpec a.specification
          then [⟨.SPEC_MISMATCH, none⟩] else []) ∧
    normSpec recDsurvey.specification = normSpec recDanalysis.specification ∧
    (∀ t : ℚ, (evaluate recDsurvey recDanalysis t).filter
        (fun i => i.kind == IssueKind.SPEC_MISMATCH) = []) := by
  refine ⟨evaluate_filter_spec, by decide, fun t => ?_⟩
  rw [evaluate_filter_spec, if_neg]
  intro hne
  exact hne (by decide)

/-- C4: for every matched pair with both loading percentages non-null, a
LOADING_DELTA_EXISTING (resp. FINAL) issue is produced iff the absolute
difference strictly exceeds the threshold (default 5.0), with the delta
magnitude in the detail field; survey 65.0 vs analysis 71.2 at threshold
5.0 yields exactly one LOADING_DELTA_EXISTING issue with detail 6.2. -/
theorem loading_delta_characterization :
    (∀ (s a : PoleRecord) (t x y : ℚ), s.existingLoadingPct = some x →
      a.existingLoadingPct = some y →
      (evaluate s a t).filter (fun i => i.kind == IssueKind.LOADING_DELTA_EXISTING) =
        if t < |x - y| then [⟨.LOADING_DELTA_EXISTING, some |x - y|⟩] else []) ∧
    (∀ (s a : PoleRecord) (t x y : ℚ), s.finalLoadingPct = some x →
      a.finalLoadingPct = some y →
      (evaluate s a t).filter (fun i => i.kind == IssueKind.LOADING_DELTA_FINAL) =
        if t < |x - y| then [⟨.LOADING_DELTA_FINAL, some |x - y|⟩] else []) ∧
    defaultThreshold = 5 ∧
    evaluate recCsurvey recCanalysis defaultThreshold =
      [⟨.LOADING_DELTA_EXISTING, some (31/5)⟩] := by
  refine ⟨evaluate_filter_existing, evaluate_filter_final, rfl, ?_⟩
  simp [evaluate, recCsurvey, recCanalysis, deltaIssue, defaultThreshold]
  rw [show |(65:ℚ) - 712/10| = 31/5 by rw [abs_of_nonpos (by norm_num)]; norm_num]
  norm_num

theorem loading_delta_characterization_witness :
    (evaluate recCsurvey recCanalysis defaultThreshold).filter
        (fun i => i.kind == IssueKind.LOADING_DELTA_EXISTING) =
      if defaultThreshold < |(65:ℚ) - 712/10| then
        [⟨.LOADING_DELTA_EXISTING, some |(65:ℚ) - 712/10|⟩] else [] :=
  loading_delta_characterization.1 recCsurvey recCanalysis defaultThreshold 65 (712/10)
    rfl rfl

/-- C5: the Normalizer rescales a non-null loading value by 100 when its
magnitude is at most 1.0 and passes it through unchanged when it exceeds
1.0; hence the inputs 0.653 and 65.3 both normalize to 65.3. -/
theorem rescale_normalizer (v : ℚ) :
    (|v| ≤ 1 → rescale v = 100 * v) ∧ (1 < v → rescale v = v) ∧
    normLoad (.val (653/1000)) = some (653/10) ∧
    normLoad (.val (653/10)) = some (653/10) := by
  refine ⟨fun h => by rw [rescale, if_pos h], fun h => ?_, ?_, ?_⟩
  · rw [rescale, if_neg]
    rw [not_le]
    exact lt_of_lt_of_le h (le_abs_self v)
  · show some (rescale (653/1000)) = some (653/10)
    rw [rescale, if_pos (by rw [abs_of_nonneg (by norm_num : (0:ℚ) ≤ 653/1000)]; norm_num)]
    norm_num
  · show some (rescale (653/10)) = some (653/10)
    rw [rescale, if_neg (by rw [abs_of_nonneg (by norm_num : (0:ℚ) ≤ 653/10)]; norm_num)]

theorem rescale_normalizer_witness :
    rescale (1/2) = 100 * (1/2) ∧ rescale 2 = 2 :=
  ⟨(rescale_normalizer (1/2)).1 (by rw [abs_of_nonneg (by norm_num : (0:ℚ) ≤ 1/2)]; norm_num),
   (rescale_normalizer 2).2.1 (by norm_num)⟩

/-- C6: null or unparseable loading fields normalize to null, never zero;
a matched pair with a null side yields no loading-delta issue for that
field and is counted as incomplete in the summary. -/
theorem null_loading_handling :
    (normLoad .missing = none ∧ normLoad .unparseable = none) ∧
    (∀ (s a : PoleRecord) (t : ℚ),
      s.existingLoadingPct = none ∨ a.existingLoadingPct = none →
      (evaluate s a t).filter (fun i => i.kind == IssueKind.LOADING_DELTA_EXISTING) = []
        ∧ pairIncomplete s a = true) ∧
    (∀ (s a : PoleRecord) (t : ℚ),
      s.finalLoadingPct = none ∨ a.finalLoadingPct = none →
      (evaluate s a t).filter (fun i => i.kind == IssueKind.LOADING_DELTA_FINAL) = []
        ∧ pairIncomplete s a = true) ∧
    (∀ (survey analysis : List PoleRecord) (t : ℚ),
      (buildResult survey analysis t).incomplete =
        (buildResult survey analysis t).pairs.countP (fun c =>
          match c.survey, c.analysis with
          | some p, some q => pairIncomplete p.2 q.2
          | _, _ => false)) := by
  refine ⟨⟨rfl, rfl⟩, fun s a t h => ⟨evaluate_filter_existing_none s a t h, ?_⟩,
    fun s a t h => ⟨evaluate_filter_final_none s a t h, ?_⟩, incomplete_buildResult⟩
  · rcases h with h | h <;> simp [pairIncomplete, incompleteField, h]
  · rcases h with h | h <;> simp [pairIncomplete, incompleteField, h]

theorem null_loading_handling_witness :
    (evaluate recDsurvey recDanalysis defaultThreshold).filter
        (fun i => i.kind == IssueKind.LOADING_DELTA_EXISTING) = []
      ∧ pairIncomplete recDsurvey recDanalysis = true :=
  null_loading_handling.2.1 recDsurvey recDanalysis defaultThreshold (Or.inl rfl)

/-! ## Threshold monotonicity -/

theorem countKind_buildResult_delta (survey analysis : List PoleRecord) (t : ℚ)
    (k : IssueKind) (h1 : ¬ IssueKind.MISSING_IN_ANALYSIS = k)
    (h2 : ¬ IssueKind.MISSING_IN_SURVEY = k) :
    countKind (buildResult survey analysis t) k =
      ((matchAll survey analysis).pairs.map
        (fun pr => ((evaluate pr.1.2 pr.2.1.2 t).filter (fun i => i.kind == k)).length)).sum := by
  simp only [countKind, buildResult]
  rw [List.map_append, List.map_append, List.sum_append, List.sum_append,
    List.map_map, List.map_map, List.map_map]
  simp only [Function.comp_def]
  simp [h1, h2]

theorem existing_len_mono (s a : PoleRecord) {t1 t2 : ℚ} (h : t1 ≤ t2) :
    ((evaluate s a t2).filter (fun i => i.kind == IssueKind.LOADING_DELTA_EXISTING)).length ≤
    ((evaluate s a t1).filter (fun i => i.kind == IssueKind.LOADING_DELTA_EXISTING)).length := by
  cases hx : s.existingLoadingPct with
  | none => rw [evaluate_filter_existing_none s a t2 (Or.inl hx)]; simp
  | some x =>
    cases hy : a.existingLoadingPct with
    | none => rw [evaluate_filter_existing_none s a t2 (Or.inr hy)]; simp
    | some y =>
      rw [evaluate_filter_existing s a t2 x y hx hy, evaluate_filter_existing s a t1 x y hx hy]
      by_cases h2 : t2 < |x - y|
      · rw [if_pos h2, if_pos (lt_of_le_of_lt h h2)]
      · rw [if_neg h2]
        simp

theorem final_len_mono (s a : PoleRecord) {t1 t2 : ℚ} (h : t1 ≤ t2) :
    ((evaluate s a t2).filter (fun i => i.kind == IssueKind.LOADING_DELTA_FINAL)).length ≤
    ((evaluate s a t1).filter (fun i => i.kind == IssueKind.LOADING_DELTA_FINAL)).length := by
  cases hx : s.finalLoadingPct with
  | none => rw [evaluate_filter_final_none s a t2 (Or.inl hx)]; simp
  | some x =>
    cases hy : a.finalLoadingPct with
    | none => rw [evaluate_filter_final_none s a t2 (Or.inr hy)]; simp
    | some y =>
      rw [evaluate_filter_final s a t2 x y hx hy, evaluate_filter_final s a t1 x y hx hy]
      by_cases h2 : t2 < |x - y|
      · rw [if_pos h2, if_pos (lt_of_le_of_lt h h2)]
      · rw [if_neg h2]
        simp

/-- C8: for fixed inputs and thresholds t1 ≤ t2, the engine run at t2
produces at most as many loading-delta issues as the run at t1: raising the
threshold never increases delta issues. -/
theorem threshold_monotone (survey analysis : List PoleRecord) {t1 t2 : ℚ}
    (h : t1 ≤ t2) :
    deltaCount (buildResult survey analysis t2) ≤
      deltaCount (buildResult survey analysis t1) := by
  unfold deltaCount
  rw [countKind_buildResult_delta survey analysis t2 _ (by decide) (by decide),
    countKind_buildResult_delta survey analysis t1 _ (by decide) (by decide),
    countKind_buildResult_delta survey analysis t2 _ (by decide) (by decide),
    countKind_buildResult_delta survey analysis t1 _ (by decide) (by decide)]
  exact Nat.add_le_add
    (List.sum_le_sum fun pr _ => existing_len_mono pr.1.2 pr.2.1.2 h)
    (List.sum_le_sum fun pr _ => final_len_mono pr.1.2 pr.2.1.2 h)

theorem threshold_monotone_witness :
    deltaCount (buildResult surveyB analysisB 7) ≤
      deltaCount (buildResult surveyB analysisB 5) :=
  threshold_monotone surveyB analysisB (by norm_num)

/-! ## Station formatting lemmas -/

theorem splitDash_ne_nil (s : List Char) : splitDash s ≠ [] := by
  cases s with
  | nil => simp [splitDash]
  | cons c rest =>
    unfold splitDash
    split
    · simp
    · split <;> simp

theorem intercalate_dash_cons_cons (w x : List Char) (ws : List (List Char)) :
    List.intercalate ['-'] (w :: x :: ws) =
      w ++ '-' :: List.intercalate ['-'] (x :: ws) := by
  simp [List.intercalate, List.intersperse]

theorem intercalate_dash_cons (c : Char) (x : List Char) (ws : List (List Char)) :
    List.intercalate ['-'] ((c :: x) :: ws) =
      c :: List.intercalate ['-'] (x :: ws) := by
  cases ws with
  | nil => simp [List.intercalate]
  | cons w ws' =>
    rw [intercalate_dash_cons_cons, intercalate_dash_cons_cons]
    simp

theorem joinDash_splitDash (s : List Char) :
    List.intercalate ['-'] (splitDash s) = s := by
  induction s with
  | nil => simp [splitDash, List.intercalate]
  | cons c rest ih =>
    obtain ⟨x, ws, hx⟩ : ∃ x ws, splitDash rest = x :: ws := by
      cases h : splitDash rest with
      | nil => exact absurd h (splitDash_ne_nil rest)
      | cons x ws => exact ⟨x, ws, rfl⟩
    unfold splitDash
    by_cases hc : c = '-'
    · rw [if_pos hc, hx]
      rw [intercalate_dash_cons_cons]
      rw [← hx, ih, hc]
      simp
    · rw [if_neg hc, hx]
      rw [intercalate_dash_cons, ← hx, ih]

theorem splitDash_cons (c : Char) (rest : List Char) :
    splitDash (c :: rest) = if c = '-' then [] :: splitDash rest
      else match splitDash rest with
        | [] => [[c]]
        | w :: ws => (c :: w) :: ws := rfl

theorem splitDash_append (a b : List Char) (h : '-' ∉ a) :
    splitDash (a ++ '-' :: b) = a :: splitDash b := by
  induction a with
  | nil => simp [splitDash]
  | cons c a' ih =>
    have hc : ¬ c = '-' := fun e => h (by rw [e]; exact List.mem_cons_self '-' a')
    have h' : '-' ∉ a' := fun e => h (List.mem_cons_of_mem c e)
    rw [List.cons_append, splitDash_cons, if_neg hc, ih h']

/-- C9: the cover-sheet station formatter drops everything up to and
including the first dash of a non-empty dash-containing station id
(remaining parts rejoined with dashes) and passes every other id through
unchanged (the empty string included); the poles-table display, the
clipboard/download text and the per-row copy helper apply the identical
transformation. -/
theorem station_formatter :
    (∀ a b : List Char, '-' ∉ a → fmtStationTable (a ++ '-' :: b) = b) ∧
    (∀ s : List Char, s = [] ∨ '-' ∉ s → fmtStationTable s = s) ∧
    (∀ s : List Char, fmtStationCoverText s = fmtStationTable s ∧
      fmtStationCopyRow s = fmtStationTable s) := by
  refine ⟨fun a b h => ?_, fun s h => ?_, fun s => ⟨rfl, rfl⟩⟩
  · unfold fmtStationTable
    rw [if_pos ⟨by simp, by simp⟩, splitDash_append a b h]
    rw [List.drop_one, List.tail_cons, joinDash_splitDash]
  · unfold fmtStationTable
    rcases h with h | h
    · rw [h, if_neg]
      intro hcon
      exact hcon.1 rfl
    · rw [if_neg]
      intro hcon
      exact h hcon.2

theorem station_formatter_witness :
    fmtStationTable (['P'] ++ '-' :: ['4', '1', '0', '6', '2', '0']) =
        ['4', '1', '0', '6', '2', '0'] ∧
      fmtStationTable [] = [] :=
  ⟨station_formatter.1 ['P'] ['4', '1', '0', '6', '2', '0'] (by decide),
   station_formatter.2.1 [] (Or.inl rfl)⟩

/-! ## Map centering -/

theorem foldl_add_map (f : PolePreview → ℚ) (l : List PolePreview) (init : ℚ) :
    l.foldl (fun s p => s + f p) init = init + (l.map f).sum := by
  induction l generalizing init with
  | nil => simp
  | cons p l ih =>
    rw [List.foldl_cons, ih, List.map_cons, List.sum_cons, add_assoc]

/-- C10: getMapCenter returns the arithmetic mean of the coordinates of
the poles whose lat and lon are both truthy, and the fixed San Antonio
default when no pole qualifies — in particular on the empty list and on
lists whose poles all have latitude 0 or longitude 0. -/
theorem map_center :
    getMapCenter [] = defaultCenter ∧
    (∀ poles : List PolePreview,
      (∀ p ∈ poles, p.lat = some 0 ∨ p.lon = some 0) →
      getMapCenter poles = defaultCenter) ∧
    (∀ poles : List PolePreview,
      poles.filter (fun p => truthyNum p.lat && truthyNum p.lon) ≠ [] →
      getMapCenter poles =
        (((poles.filter (fun p => truthyNum p.lat && truthyNum p.lon)).map
            (fun p => p.lat.getD 0)).sum /
          ((poles.filter (fun p => truthyNum p.lat && truthyNum p.lon)).length : ℚ),
         ((poles.filter (fun p => truthyNum p.lat && truthyNum p.lon)).map
            (fun p => p.lon.getD 0)).sum /
          ((poles.filter (fun p => truthyNum p.lat && truthyNum p.lon)).length : ℚ))) := by
  refine ⟨rfl, fun poles h => ?_, fun poles h => ?_⟩
  · have hnil : poles.filter (fun p => truthyNum p.lat && truthyNum p.lon) = [] := by
      rw [List.filter_eq_nil_iff]
      intro p hp
      rcases h p hp with h0 | h0 <;> simp [truthyNum, h0]
    simp only [getMapCenter, hnil]
    rfl
  · simp only [getMapCenter]
    rw [if_neg (fun hlen => h (List.eq_nil_of_length_eq_zero hlen))]
    rw [foldl_add_map, foldl_add_map, zero_add, zero_add]

/-! ## Matcher pass lemmas -/

theorem pairAt_some {stg : Strategy} {lS lA : List (Nat × PoleRecord)}
    {p : Nat × PoleRecord}
    {pr : (Nat × PoleRecord) × (Nat × PoleRecord) × Strategy}
    (h : pairAt stg lS lA p = some pr) :
    ∃ k x q, keyOf stg p.2 = some k ∧ candOf stg k lS = [x] ∧
      candOf stg k lA = [q] ∧ pr = (p, q, stg) := by
  unfold pairAt at h
  split at h
  · simp at h
  · rename_i k hk
    split at h
    · rename_i x q hS hA
      simp at h
      exact ⟨k, x, q, hk, hS, hA, h.symm⟩
    · simp at h

theorem mem_candOf {stg : Strategy} {k : KeyV} {l : List (Nat × PoleRecord)}
    {q : Nat × PoleRecord} :
    q ∈ candOf stg k l ↔ q ∈ l ∧ keyOf stg q.2 = some k := by
  unfold candOf
  rw [List.mem_filter, decide_eq_true_iff]

theorem contains_true_iff (c : List Nat) (a : Nat) : c.contains a = true ↔ a ∈ c := by
  simp

theorem mem_liveOn {idx : List (Nat × PoleRecord)} {c : List Nat}
    {p : Nat × PoleRecord} :
    p ∈ liveOn idx c ↔ p ∈ idx ∧ p.1 ∉ c := by
  unfold liveOn
  simp [List.mem_filter]

theorem passStep_dupA (surveyI analysisI : List (Nat × PoleRecord)) (stg : Strategy)
    (st : MatchState) (k : KeyV) (q : Nat × PoleRecord)
    (hlook : ∃ p ∈ liveOn surveyI st.consumedS, keyOf stg p.2 = some k)
    (hlen : 1 < (candOf stg k (liveOn analysisI st.consumedA)).length)
    (hq : q ∈ candOf stg k (liveOn analysisI st.consumedA)) :
    q.1 ∈ (passStep surveyI analysisI stg st).dupA ∧
      ∀ pr ∈ (passStep surveyI analysisI stg st).pairs,
        pr ∈ st.pairs ∨ pr.2.1 ≠ q := by
  obtain ⟨hqA, hkq⟩ := mem_candOf.mp hq
  constructor
  · simp only [passStep]
    rw [List.mem_append]
    right
    apply List.mem_map.mpr
    refine ⟨q, List.mem_filter.mpr ⟨hqA, ?_⟩, rfl⟩
    unfold dupFlagA
    rw [hkq]
    rw [Bool.and_eq_true]
    obtain ⟨p, hpmem, hpkey⟩ := hlook
    exact ⟨List.any_eq_true.mpr ⟨p, hpmem, by rw [decide_eq_true_iff]; exact hpkey⟩,
      decide_eq_true hlen⟩
  · intro pr hpr
    simp only [passStep] at hpr
    rw [List.mem_append] at hpr
    rcases hpr with hold | hnew
    · exact Or.inl hold
    · right
      obtain ⟨p', hp', hpair⟩ := List.mem_filterMap.mp hnew
      obtain ⟨k', x', q', hk', hS', hA', hpr_eq⟩ := pairAt_some hpair
      intro hqq
      rw [hpr_eq] at hqq
      have hqq2 : q' = q := hqq
      have hq'mem : q' ∈ candOf stg k' (liveOn analysisI st.consumedA) := by
        rw [hA']
        exact List.mem_singleton_self q'
      obtain ⟨_, hkq'⟩ := mem_candOf.mp hq'mem
      rw [hqq2, hkq] at hkq'
      have hkk : k = k' := Option.some.inj hkq'
      rw [← hkk] at hA'
      rw [hA'] at hlen
      simp at hlen

theorem passStep_dupS (surveyI analysisI : List (Nat × PoleRecord)) (stg : Strategy)
    (st : MatchState) (k : KeyV) (p : Nat × PoleRecord)
    (hlen : 1 < (candOf stg k (liveOn surveyI st.consumedS)).length)
    (hp : p ∈ candOf stg k (liveOn surveyI st.consumedS)) :
    p.1 ∈ (passStep surveyI analysisI stg st).dupS ∧
      ∀ pr ∈ (passStep surveyI analysisI stg st).pairs,
        pr ∈ st.pairs ∨ pr.1 ≠ p := by
  obtain ⟨hpS, hkp⟩ := mem_candOf.mp hp
  constructor
  · simp only [passStep]
    rw [List.mem_append]
    right
    apply List.mem_map.mpr
    refine ⟨p, List.mem_filter.mpr ⟨hpS, ?_⟩, rfl⟩
    unfold dupFlagS
    rw [hkp]
    exact decide_eq_true hlen
  · intro pr hpr
    simp only [passStep] at hpr
    rw [List.mem_append] at hpr
    rcases hpr with hold | hnew
    · exact Or.inl hold
    · right
      obtain ⟨p', hp', hpair⟩ := List.mem_filterMap.mp hnew
      obtain ⟨k', x', q', hk', hS', hA', hpr_eq⟩ := pairAt_some hpair
      intro hpp
      rw [hpr_eq] at hpp
      have hpp2 : p' = p := hpp
      have hk'2 : keyOf stg p.2 = some k' := by rw [← hpp2]; exact hk'
      rw [hkp] at hk'2
      have hkk : k = k' := Option.some.inj hk'2
      rw [← hkk] at hS'
      rw [hS'] at hlen
      simp at hlen

/-- C2: a key value shared by more than one candidate on a side is never
auto-paired: every record sharing it on the ambiguous side(s) is flagged
DUPLICATE and stays unmatched at that strategy; concretely, two analysis
records sharing rawId 410621 against one survey record 410621 are both
flagged DUPLICATE and the survey record ends as an unmatched pair with
issue MISSING_IN_ANALYSIS. -/
theorem duplicate_no_autopair :
    (∀ (surveyI analysisI : List (Nat × PoleRecord)) (stg : Strategy)
      (st : MatchState) (k : KeyV) (q : Nat × PoleRecord),
      (∃ p ∈ liveOn surveyI st.consumedS, keyOf stg p.2 = some k) →
      1 < (candOf stg k (liveOn analysisI st.consumedA)).length →
      q ∈ candOf stg k (liveOn analysisI st.consumedA) →
      q.1 ∈ (passStep surveyI analysisI stg st).dupA ∧
        ∀ pr ∈ (passStep surveyI analysisI stg st).pairs,
          pr ∈ st.pairs ∨ pr.2.1 ≠ q) ∧
    (∀ (surveyI analysisI : List (Nat × PoleRecord)) (stg : Strategy)
      (st : MatchState) (k : KeyV) (p : Nat × PoleRecord),
      1 < (candOf stg k (liveOn surveyI st.consumedS)).length →
      p ∈ candOf stg k (liveOn surveyI st.consumedS) →
      p.1 ∈ (passStep surveyI analysisI stg st).dupS ∧
        ∀ pr ∈ (passStep surveyI analysisI stg st).pairs,
          pr ∈ st.pairs ∨ pr.1 ≠ p) ∧
    (matchAll surveyB analysisB).pairs = [] ∧
    (buildResult surveyB analysisB defaultThreshold).dupAnalysis.map
        (fun p => (p.1, p.2.rawId)) = [(0, "410621"), (1, "410621")] ∧
    (buildResult surveyB analysisB defaultThreshold).pairs.map
        (fun c => (c.survey.map Prod.fst, c.analysis.map Prod.fst,
          c.matchedBy, c.issues)) =
      [(some 0, none, none, [⟨.MISSING_IN_ANALYSIS, none⟩])] :=
  ⟨passStep_dupA, passStep_dupS, by decide, by decide, by decide⟩

theorem duplicate_no_autopair_witness :
    (0 : Nat) ∈ (passStep (withIdx surveyB) (withIdx analysisB) .normalizedId
      ⟨[], [], []⟩).dupA :=
  (duplicate_no_autopair.1 (withIdx surveyB) (withIdx analysisB) .normalizedId
    ⟨[], [], []⟩ (.str "410621")
    ((0 : Nat), ⟨SourceKind.analysis, "410621", "410621", some 410621, none,
      "40-3", none, none, ""⟩)
    (by decide) (by decide) (by decide)).1

theorem map_center_witness :
    getMapCenter [⟨some 0, some 3⟩] = defaultCenter ∧
    getMapCenter [⟨some 1, some 2⟩, ⟨some 3, some 4⟩] = (2, 3) := by
  constructor
  · exact map_center.2.1 [⟨some 0, some 3⟩] (by intro p hp; simp at hp; rw [hp]; exact Or.inl rfl)
  · rw [map_center.2.2 [⟨some 1, some 2⟩, ⟨some 3, some 4⟩] (by simp [truthyNum])]
    simp [truthyNum]
    norm_num

/-! ## Indexed-list and state-invariant lemmas for the matcher -/

theorem idxFrom_map_fst (n : Nat) (l : List α) :
    (idxFrom n l).map Prod.fst = List.range' n l.length := by
  induction l generalizing n with
  | nil => simp [idxFrom]
  | cons a l ih => simp [idxFrom, List.range'_succ, ih]

theorem withIdx_fst_nodup (l : List α) : ((withIdx l).map Prod.fst).Nodup := by
  rw [withIdx, idxFrom_map_fst]
  exact List.nodup_range' _ _ _ (by norm_num)

theorem exists_mem_idxFrom {l : List α} :
    ∀ {n i : Nat}, n ≤ i → i < n + l.length → ∃ a, (i, a) ∈ idxFrom n l := by
  induction l with
  | nil => intro n i h1 h2; simp at h2; omega
  | cons b l ih =>
    intro n i h1 h2
    by_cases hi : i = n
    · exact ⟨b, by rw [hi]; exact List.mem_cons_self _ _⟩
    · have h1' : n + 1 ≤ i := by omega
      have h2' : i < (n + 1) + l.length := by simp at h2; omega
      obtain ⟨a, ha⟩ := ih h1' h2'
      exact ⟨a, List.mem_cons_of_mem _ ha⟩

theorem exists_mem_withIdx {l : List α} {i : Nat} (h : i < l.length) :
    ∃ a, (i, a) ∈ withIdx l :=
  exists_mem_idxFrom (Nat.zero_le i) (by omega)

theorem fst_inj_of_fst_nodup {l : List (Nat × PoleRecord)}
    (h : (l.map Prod.fst).Nodup) {p q : Nat × PoleRecord}
    (hp : p ∈ l) (hq : q ∈ l) (he : p.1 = q.1) : p = q :=
  List.inj_on_of_nodup_map h hp hq he

theorem liveOn_subset {idx : List (Nat × PoleRecord)} {c : List Nat} :
    ∀ p ∈ liveOn idx c, p ∈ idx := fun p hp => (mem_liveOn.mp hp).1

theorem liveOn_fst_nodup {idx : List (Nat × PoleRecord)} {c : List Nat}
    (h : (idx.map Prod.fst).Nodup) : ((liveOn idx c).map Prod.fst).Nodup :=
  h.sublist ((List.filter_sublist idx).map Prod.fst)

theorem candOf_subset {stg : Strategy} {k : KeyV} {l : List (Nat × PoleRecord)} :
    ∀ p ∈ candOf stg k l, p ∈ l := fun p hp => (mem_candOf.mp hp).1

theorem filterMap_map_sublist {α β : Type _} {f : α → Option β} {g : β → α}
    (hfg : ∀ a b, f a = some b → g b = a) :
    ∀ l : List α, List.Sublist ((l.filterMap f).map g) l := by
  intro l
  induction l with
  | nil => simp
  | cons a l ih =>
    rw [List.filterMap_cons]
    cases hfa : f a with
    | none => exact List.Sublist.cons a ih
    | some b =>
      rw [List.map_cons, hfg a b hfa]
      exact List.Sublist.cons₂ a ih

theorem nodup_filterMap_on {α β : Type _} {l : List α} {f : α → Option β}
    (hnd : l.Nodup)
    (h : ∀ a ∈ l, ∀ a' ∈ l, ∀ b, f a = some b → f a' = some b → a = a') :
    (l.filterMap f).Nodup := by
  induction l with
  | nil => simp
  | cons a l ih =>
    obtain ⟨hal, hl⟩ := List.nodup_cons.mp hnd
    rw [List.filterMap_cons]
    cases hfa : f a with
    | none =>
      exact ih hl fun x hx y hy b h1 h2 =>
        h x (List.mem_cons_of_mem a hx) y (List.mem_cons_of_mem a hy) b h1 h2
    | some b =>
      rw [List.nodup_cons]
      constructor
      · intro hbmem
        obtain ⟨a', ha', hfa'⟩ := List.mem_filterMap.mp hbmem
        have hae : a = a' := h a (List.mem_cons_self a l) a'
          (List.mem_cons_of_mem a ha') b hfa hfa'
        rw [← hae] at ha'
        exact hal ha'
      · exact ih hl fun x hx y hy b' h1 h2 =>
          h x (List.mem_cons_of_mem a hx) y (List.mem_cons_of_mem a hy) b' h1 h2

theorem passStep_pairs_eq (surveyI analysisI : List (Nat × PoleRecord))
    (stg : Strategy) (st : MatchState) :
    (passStep surveyI analysisI stg st).pairs =
      st.pairs ++ (liveOn surveyI st.consumedS).filterMap
        (pairAt stg (liveOn surveyI st.consumedS)
          (liveOn analysisI st.consumedA)) := rfl

theorem passStep_consumedS_eq (surveyI analysisI : List (Nat × PoleRecord))
    (stg : Strategy) (st : MatchState) :
    (passStep surveyI analysisI stg st).consumedS =
      st.consumedS ++ ((liveOn surveyI st.consumedS).filterMap
        (pairAt stg (liveOn surveyI st.consumedS)
          (liveOn analysisI st.consumedA))).map (fun pr => pr.1.1) := by
  unfold MatchState.consumedS
  rw [passStep_pairs_eq, List.map_append]
  rfl

theorem passStep_consumedA_eq (surveyI analysisI : List (Nat × PoleRecord))
    (stg : Strategy) (st : MatchState) :
    (passStep surveyI analysisI stg st).consumedA =
      st.consumedA ++ ((liveOn surveyI st.consumedS).filterMap
        (pairAt stg (liveOn surveyI st.consumedS)
          (liveOn analysisI st.consumedA))).map (fun pr => pr.2.1.1) := by
  unfold MatchState.consumedA
  rw [passStep_pairs_eq, List.map_append]
  rfl

theorem passStep_inv {surveyI analysisI : List (Nat × PoleRecord)}
    (hfS : (surveyI.map Prod.fst).Nodup) (hfA : (analysisI.map Prod.fst).Nodup)
    {st : MatchState} (stg : Strategy) (hinv : Inv surveyI analysisI st) :
    Inv surveyI analysisI (passStep surveyI analysisI stg st) := by
  obtain ⟨hmem, hndS, hndA⟩ := hinv
  refine ⟨?_, ?_, ?_⟩
  · intro pr hpr
    rw [passStep_pairs_eq, List.mem_append] at hpr
    rcases hpr with hold | hnew
    · exact hmem pr hold
    · obtain ⟨p', hp', hpair⟩ := List.mem_filterMap.mp hnew
      obtain ⟨k', x', q', hk', hS', hA', hpr_eq⟩ := pairAt_some hpair
      subst hpr_eq
      have hq'm : q' ∈ candOf stg k' (liveOn analysisI st.consumedA) := by
        rw [hA']
        exact List.mem_singleton_self q'
      exact ⟨liveOn_subset p' hp',
        liveOn_subset q' (candOf_subset q' hq'm),
        k', hk', (mem_candOf.mp hq'm).2⟩
  · rw [passStep_consumedS_eq, List.nodup_append]
    refine ⟨hndS, ?_, ?_⟩
    · have hsub : List.Sublist
          (((liveOn surveyI st.consumedS).filterMap
            (pairAt stg (liveOn surveyI st.consumedS)
              (liveOn analysisI st.consumedA))).map (fun pr => pr.1))
          (liveOn surveyI st.consumedS) :=
        filterMap_map_sublist (fun p pr hp => by
          obtain ⟨k', x', q', _, _, _, hpr_eq⟩ := pairAt_some hp
          rw [hpr_eq]) _
      have heq : (((liveOn surveyI st.consumedS).filterMap
            (pairAt stg (liveOn surveyI st.consumedS)
              (liveOn analysisI st.consumedA))).map (fun pr => pr.1.1)) =
          ((((liveOn surveyI st.consumedS).filterMap
            (pairAt stg (liveOn surveyI st.consumedS)
              (liveOn analysisI st.consumedA))).map (fun pr => pr.1)).map Prod.fst) := by
        rw [List.map_map]
        rfl
      rw [heq]
      exact (liveOn_fst_nodup hfS).sublist (hsub.map Prod.fst)
    · intro a ha hb
      obtain ⟨pr, hpr, hpra⟩ := List.mem_map.mp hb
      obtain ⟨p', hp', hpair⟩ := List.mem_filterMap.mp hpr
      obtain ⟨k', x', q', _, _, _, hpr_eq⟩ := pairAt_some hpair
      have hp1 : pr.1.1 = p'.1 := by rw [hpr_eq]
      have hnotin : p'.1 ∉ st.consumedS := (mem_liveOn.mp hp').2
      apply hnotin
      rw [← hp1, hpra]
      exact ha
  · rw [passStep_consumedA_eq, List.nodup_append]
    refine ⟨hndA, ?_, ?_⟩
    · rw [List.map_filterMap]
      apply nodup_filterMap_on ((liveOn_fst_nodup hfS).of_map _)
      intro p1 h1 p2 h2 j hj1 hj2
      obtain ⟨pr1, hpr1, hj1'⟩ := Option.map_eq_some'.mp hj1
      obtain ⟨pr2, hpr2, hj2'⟩ := Option.map_eq_some'.mp hj2
      obtain ⟨k1, x1, q1, hk1, hS1, hA1, he1⟩ := pairAt_some hpr1
      obtain ⟨k2, x2, q2, hk2, hS2, hA2, he2⟩ := pairAt_some hpr2
      have hq1j : q1.1 = j := by rw [he1] at hj1'; exact hj1'
      have hq2j : q2.1 = j := by rw [he2] at hj2'; exact hj2'
      have hq1c : q1 ∈ candOf stg k1 (liveOn analysisI st.consumedA) := by
        rw [hA1]
        exact List.mem_singleton_self q1
      have hq2c : q2 ∈ candOf stg k2 (liveOn analysisI st.consumedA) := by
        rw [hA2]
        exact List.mem_singleton_self q2
      have hq12 : q1 = q2 :=
        fst_inj_of_fst_nodup (liveOn_fst_nodup hfA)
          (candOf_subset q1 hq1c) (candOf_subset q2 hq2c)
          (by rw [hq1j, hq2j])
      have hk12 : k1 = k2 := by
        have e1 : keyOf stg q1.2 = some k1 := (mem_candOf.mp hq1c).2
        have e2 : keyOf stg q2.2 = some k2 := (mem_candOf.mp hq2c).2
        rw [hq12] at e1
        rw [e1] at e2
        exact Option.some.inj e2
      have hp1c : p1 ∈ candOf stg k1 (liveOn surveyI st.consumedS) :=
        mem_candOf.mpr ⟨h1, hk1⟩
      have hp2c : p2 ∈ candOf stg k1 (liveOn surveyI st.consumedS) :=
        mem_candOf.mpr ⟨h2, by rw [hk12]; exact hk2⟩
      rw [hS1] at hp1c hp2c
      rw [List.mem_singleton] at hp1c hp2c
      rw [hp1c, hp2c]
    · intro a ha hb
      obtain ⟨pr, hpr, hpra⟩ := List.mem_map.mp hb
      obtain ⟨p', hp', hpair⟩ := List.mem_filterMap.mp hpr
      obtain ⟨k', x', q', hk', hS', hA', hpr_eq⟩ := pairAt_some hpair
      have hq'c : q' ∈ candOf stg k' (liveOn analysisI st.consumedA) := by
        rw [hA']
        exact List.mem_singleton_self q'
      have hnotin : q'.1 ∉ st.consumedA :=
        (mem_liveOn.mp (candOf_subset q' hq'c)).2
      apply hnotin
      have hq1 : pr.2.1.1 = q'.1 := by rw [hpr_eq]
      rw [← hq1, hpra]
      exact ha

theorem matchAll_inv (survey analysis : List PoleRecord) :
    Inv (withIdx survey) (withIdx analysis) (matchAll survey analysis) := by
  have hstep : ∀ (L : List Strategy) (st : MatchState),
      Inv (withIdx survey) (withIdx analysis) st →
      Inv (withIdx survey) (withIdx analysis)
        (L.foldl (fun s stg => passStep (withIdx survey) (withIdx analysis) stg s) st) := by
    intro L
    induction L with
    | nil => intro st h; exact h
    | cons stg L ih =>
      intro st h
      exact ih _ (passStep_inv (withIdx_fst_nodup survey) (withIdx_fst_nodup analysis) stg h)
  exact hstep strategies ⟨[], [], []⟩
    ⟨fun pr hpr => absurd hpr (List.not_mem_nil pr), List.nodup_nil, List.nodup_nil⟩

/-! ## Completeness counting lemmas -/

theorem countP_filter_split (p q : α → Bool) (l : List α) :
    (l.filter q).countP p + (l.filter (fun a => !(q a))).countP p = l.countP p := by
  induction l with
  | nil => simp
  | cons a l ih =>
    by_cases hq : q a = true
    · rw [List.filter_cons_of_pos hq, List.filter_cons_of_neg (by simp [hq]),
        List.countP_cons, List.countP_cons]
      by_cases hp : p a = true <;> simp [hp] <;> omega
    · rw [List.filter_cons_of_neg hq, List.filter_cons_of_pos (by simp [hq]),
        List.countP_cons, List.countP_cons]
      by_cases hp : p a = true <;> simp [hp] <;> omega

theorem countP_fst_eq (l : List (Nat × PoleRecord)) (i : Nat) :
    l.countP (fun p => p.1 == i) = (l.map Prod.fst).count i := by
  rw [List.count_eq_countP, List.countP_map]
  rfl

theorem countP_fst_one {l : List (Nat × PoleRecord)} (hnd : (l.map Prod.fst).Nodup)
    {i : Nat} (h : i ∈ l.map Prod.fst) : l.countP (fun p => p.1 == i) = 1 := by
  rw [countP_fst_eq]
  exact List.count_eq_one_of_mem hnd h

theorem countP_fst_zero {l : List (Nat × PoleRecord)} {i : Nat}
    (h : i ∉ l.map Prod.fst) : l.countP (fun p => p.1 == i) = 0 := by
  rw [countP_fst_eq]
  exact List.count_eq_zero_of_not_mem h

theorem count_some_map (xs : List Nat) (i : Nat) :
    (xs.map some).count (some i) = xs.count i := by
  induction xs with
  | nil => simp
  | cons a xs ih =>
    rw [List.map_cons, List.count_cons, List.count_cons, ih]
    by_cases h : a = i <;> simp [h]

theorem surveySlots_buildResult (survey analysis : List PoleRecord) (t : ℚ) :
    surveySlots (buildResult survey analysis t) =
      ((matchAll survey analysis).pairs.map (fun pr => pr.1.1)).map some
      ++ (((liveOn (withIdx survey) (matchAll survey analysis).consumedS).filter
            (fun p => !((matchAll survey analysis).dupS.contains p.1))).map
              Prod.fst).map some
      ++ ((liveOn (withIdx analysis) (matchAll survey analysis).consumedA).filter
            (fun p => !((matchAll survey analysis).dupA.contains p.1))).map
              (fun _ => (none : Option Nat)) := by
  simp only [surveySlots, buildResult]
  rw [List.map_append, List.map_append, List.map_map, List.map_map, List.map_map,
    List.map_map, List.map_map]
  rfl

theorem analysisSlots_buildResult (survey analysis : List PoleRecord) (t : ℚ) :
    analysisSlots (buildResult survey analysis t) =
      ((matchAll survey analysis).pairs.map (fun pr => pr.2.1.1)).map some
      ++ ((liveOn (withIdx survey) (matchAll survey analysis).consumedS).filter
            (fun p => !((matchAll survey analysis).dupS.contains p.1))).map
              (fun _ => (none : Option Nat))
      ++ (((liveOn (withIdx analysis) (matchAll survey analysis).consumedA).filter
            (fun p => !((matchAll survey analysis).dupA.contains p.1))).map
              Prod.fst).map some := by
  simp only [analysisSlots, buildResult]
  rw [List.map_append, List.map_append, List.map_map, List.map_map, List.map_map,
    List.map_map, List.map_map]
  rfl

theorem buildResult_countS (survey analysis : List PoleRecord) (t : ℚ) (i : Nat)
    (hi : i < survey.length) :
    (surveySlots (buildResult survey analysis t)).count (some i) +
      ((buildResult survey analysis t).dupSurvey.map Prod.fst).count i = 1 := by
  obtain ⟨hmem, hndS, hndA⟩ := matchAll_inv survey analysis
  rw [surveySlots_buildResult]
  rw [List.count_append, List.count_append, count_some_map, count_some_map]
  have h3 : (((liveOn (withIdx analysis) (matchAll survey analysis).consumedA).filter
      (fun p => !((matchAll survey analysis).dupA.contains p.1))).map
        (fun _ => (none : Option Nat))).count (some i) = 0 := by
    apply List.count_eq_zero_of_not_mem
    intro hmem'
    obtain ⟨p, _, hp⟩ := List.mem_map.mp hmem'
    exact Option.noConfusion hp
  rw [h3, Nat.add_zero]
  have hdup : (buildResult survey analysis t).dupSurvey =
      (liveOn (withIdx survey) (matchAll survey analysis).consumedS).filter
        (fun p => (matchAll survey analysis).dupS.contains p.1) := rfl
  rw [hdup, ← countP_fst_eq, ← countP_fst_eq]
  have hsplit := countP_filter_split (fun p => p.1 == i)
    (fun p => (matchAll survey analysis).dupS.contains p.1)
    (liveOn (withIdx survey) (matchAll survey analysis).consumedS)
  by_cases hin : i ∈ (matchAll survey analysis).consumedS
  · have ha : ((matchAll survey analysis).pairs.map (fun pr => pr.1.1)).count i = 1 :=
      List.count_eq_one_of_mem hndS hin
    have hb0 : (liveOn (withIdx survey)
        (matchAll survey analysis).consumedS).countP (fun p => p.1 == i) = 0 := by
      apply countP_fst_zero
      intro hmm
      obtain ⟨p, hpmem, hpfst⟩ := List.mem_map.mp hmm
      exact (mem_liveOn.mp hpmem).2 (hpfst ▸ hin)
    rw [hb0] at hsplit
    have ha' : ((matchAll survey analysis).pairs.map (fun pr => pr.1.1)).countP
        (fun x => x == i) = 1 := by
      rw [← List.count_eq_countP]
      exact ha
    omega
  · have ha : ((matchAll survey analysis).pairs.map (fun pr => pr.1.1)).count i = 0 :=
      List.count_eq_zero_of_not_mem hin
    have hb1 : (liveOn (withIdx survey)
        (matchAll survey analysis).consumedS).countP (fun p => p.1 == i) = 1 := by
      apply countP_fst_one (liveOn_fst_nodup (withIdx_fst_nodup survey))
      obtain ⟨a, hamem⟩ := exists_mem_withIdx hi
      exact List.mem_map.mpr ⟨(i, a), mem_liveOn.mpr ⟨hamem, hin⟩, rfl⟩
    rw [hb1] at hsplit
    have ha' : ((matchAll survey analysis).pairs.map (fun pr => pr.1.1)).countP
        (fun x => x == i) = 0 := by
      rw [← List.count_eq_countP]
      exact ha
    omega

theorem buildResult_countA (survey analysis : List PoleRecord) (t : ℚ) (j : Nat)
    (hj : j < analysis.length) :
    (analysisSlots (buildResult survey analysis t)).count (some j) +
      ((buildResult survey analysis t).dupAnalysis.map Prod.fst).count j = 1 := by
  obtain ⟨hmem, hndS, hndA⟩ := matchAll_inv survey analysis
  rw [analysisSlots_buildResult]
  rw [List.count_append, List.count_append, count_some_map, count_some_map]
  have h2 : (((liveOn (withIdx survey) (matchAll survey analysis).consumedS).filter
      (fun p => !((matchAll survey analysis).dupS.contains p.1))).map
        (fun _ => (none : Option Nat))).count (some j) = 0 := by
    apply List.count_eq_zero_of_not_mem
    intro hmem'
    obtain ⟨p, _, hp⟩ := List.mem_map.mp hmem'
    exact Option.noConfusion hp
  rw [h2, Nat.add_zero]
  have hdup : (buildResult survey analysis t).dupAnalysis =
      (liveOn (withIdx analysis) (matchAll survey analysis).consumedA).filter
        (fun p => (matchAll survey analysis).dupA.contains p.1) := rfl
  rw [hdup, ← countP_fst_eq, ← countP_fst_eq]
  have hsplit := countP_filter_split (fun p => p.1 == j)
    (fun p => (matchAll survey analysis).dupA.contains p.1)
    (liveOn (withIdx analysis) (matchAll survey analysis).consumedA)
  by_cases hin : j ∈ (matchAll survey analysis).consumedA
  · have ha : ((matchAll survey analysis).pairs.map (fun pr => pr.2.1.1)).count j = 1 :=
      List.count_eq_one_of_mem hndA hin
    have hb0 : (liveOn (withIdx analysis)
        (matchAll survey analysis).consumedA).countP (fun p => p.1 == j) = 0 := by
      apply countP_fst_zero
      intro hmm
      obtain ⟨p, hpmem, hpfst⟩ := List.mem_map.mp hmm
      exact (mem_liveOn.mp hpmem).2 (hpfst ▸ hin)
    rw [hb0] at hsplit
    have ha' : ((matchAll survey analysis).pairs.map (fun pr => pr.2.1.1)).countP
        (fun x => x == j) = 1 := by
      rw [← List.count_eq_countP]
      exact ha
    omega
  · have ha : ((matchAll survey analysis).pairs.map (fun pr => pr.2.1.1)).count j = 0 :=
      List.count_eq_zero_of_not_mem hin
    have hb1 : (liveOn (withIdx analysis)
        (matchAll survey analysis).consumedA).countP (fun p => p.1 == j) = 1 := by
      apply countP_fst_one (liveOn_fst_nodup (withIdx_fst_nodup analysis))
      obtain ⟨a, hamem⟩ := exists_mem_withIdx hj
      exact List.mem_map.mpr ⟨(j, a), mem_liveOn.mpr ⟨hamem, hin⟩, rfl⟩
    rw [hb1] at hsplit
    have ha' : ((matchAll survey analysis).pairs.map (fun pr => pr.2.1.1)).countP
        (fun x => x == j) = 0 := by
      rw [← List.count_eq_countP]
      exact ha
    omega

theorem missing_pairs_shape (survey analysis : List PoleRecord) (t : ℚ) :
    ∀ c ∈ (buildResult survey analysis t).pairs,
      (c.analysis = none → c.survey.isSome ∧ c.matchedBy = none ∧
        c.issues = [⟨.MISSING_IN_ANALYSIS, none⟩]) ∧
      (c.survey = none → c.analysis.isSome ∧ c.matchedBy = none ∧
        c.issues = [⟨.MISSING_IN_SURVEY, none⟩]) := by
  intro c hc
  simp only [buildResult] at hc
  rw [List.mem_append, List.mem_append] at hc
  rcases hc with (hm | hs) | ha
  · obtain ⟨pr, _, hpr⟩ := List.mem_map.mp hm
    rw [← hpr]
    exact ⟨fun h => absurd h (by simp), fun h => absurd h (by simp)⟩
  · obtain ⟨p, _, hp⟩ := List.mem_map.mp hs
    rw [← hp]
    exact ⟨fun _ => ⟨by simp, rfl, rfl⟩, fun h => absurd h (by simp)⟩
  · obtain ⟨p, _, hp⟩ := List.mem_map.mp ha
    rw [← hp]
    exact ⟨fun h => absurd h (by simp), fun _ => ⟨by simp, rfl, rfl⟩⟩

theorem normalize_isSome (kind : SourceKind) (r : RawRecord) :
    (normalize kind r).isSome ↔ r.id ≠ "" := by
  unfold normalize
  by_cases h : r.id = "" <;> simp [h]

/-- C7: every normalized input record (non-empty rawId, with its source)
appears in exactly one ComparisonPair slot or exactly one duplicates list
of the reconciliation result — none is lost, none appears in both; every
record left unmatched after all strategies becomes a pair with the other
side null and the corresponding MISSING issue; and a raw row survives
normalization exactly when its identifier is non-empty. -/
theorem reconciliation_completeness :
    (∀ (survey analysis : List PoleRecord) (t : ℚ) (i : Nat), i < survey.length →
      (surveySlots (buildResult survey analysis t)).count (some i) +
        ((buildResult survey analysis t).dupSurvey.map Prod.fst).count i = 1) ∧
    (∀ (survey analysis : List PoleRecord) (t : ℚ) (j : Nat), j < analysis.length →
      (analysisSlots (buildResult survey analysis t)).count (some j) +
        ((buildResult survey analysis t).dupAnalysis.map Prod.fst).count j = 1) ∧
    (∀ (survey analysis : List PoleRecord) (t : ℚ),
      ∀ c ∈ (buildResult survey analysis t).pairs,
        (c.analysis = none → c.survey.isSome ∧ c.matchedBy = none ∧
          c.issues = [⟨.MISSING_IN_ANALYSIS, none⟩]) ∧
        (c.survey = none → c.analysis.isSome ∧ c.matchedBy = none ∧
          c.issues = [⟨.MISSING_IN_SURVEY, none⟩])) ∧
    (∀ (kind : SourceKind) (r : RawRecord), (normalize kind r).isSome ↔ r.id ≠ "") :=
  ⟨buildResult_countS, buildResult_countA, missing_pairs_shape, normalize_isSome⟩

theorem reconciliation_completeness_witness :
    (surveySlots (buildResult surveyB analysisB 5)).count (some 0) +
      ((buildResult surveyB analysisB 5).dupSurvey.map Prod.fst).count 0 = 1 :=
  reconciliation_completeness.1 surveyB analysisB 5 0 (by decide)

/-! ## First-match pairing lemmas -/

theorem eq_singleton_of_mem_of_length_le_one {α : Type _} {l : List α} {a : α}
    (h : a ∈ l) (hl : l.length ≤ 1) : l = [a] := by
  cases l with
  | nil => cases h
  | cons b bs =>
    cases bs with
    | nil => rw [List.mem_singleton] at h; rw [h]
    | cons c cs => simp at hl

theorem candOf_liveOn_sublist (stg : Strategy) (k : KeyV)
    (idx : List (Nat × PoleRecord)) (c : List Nat) :
    List.Sublist (candOf stg k (liveOn idx c)) (candOf stg k idx) :=
  (List.filter_sublist idx).filter _

theorem keyAgreeB_iff (stg : Strategy) (s a : PoleRecord) :
    keyAgreeB stg s a = true ↔
      ∃ k, keyOf stg s = some k ∧ keyOf stg a = some k := by
  unfold keyAgreeB
  cases hks : keyOf stg s <;> cases hka : keyOf stg a <;> simp
  exact eq_comm

theorem foldl_pairs_mono {surveyI analysisI : List (Nat × PoleRecord)}
    (L : List Strategy) (st : MatchState)
    {pr : (Nat × PoleRecord) × (Nat × PoleRecord) × Strategy} (h : pr ∈ st.pairs) :
    pr ∈ (L.foldl (fun s stg => passStep surveyI analysisI stg s) st).pairs := by
  induction L generalizing st with
  | nil => exact h
  | cons stg L ih =>
    exact ih (passStep surveyI analysisI stg st)
      (by rw [passStep_pairs_eq, List.mem_append]; exact Or.inl h)

theorem passStep_pairs_of_agree {surveyI analysisI : List (Nat × PoleRecord)}
    (stg : Strategy) (st : MatchState) {i j : Nat} {sv an : PoleRecord}
    (hs : (i, sv) ∈ surveyI) (ha : (j, an) ∈ analysisI)
    (hi : i ∉ st.consumedS) (hj : j ∉ st.consumedA)
    (H1S : ∀ k, (candOf stg k surveyI).length ≤ 1)
    (H1A : ∀ k, (candOf stg k analysisI).length ≤ 1)
    {k0 : KeyV} (hks : keyOf stg sv = some k0) (hka : keyOf stg an = some k0) :
    ((i, sv), (j, an), stg) ∈ (passStep surveyI analysisI stg st).pairs := by
  have hmemS : (i, sv) ∈ candOf stg k0 (liveOn surveyI st.consumedS) :=
    mem_candOf.mpr ⟨mem_liveOn.mpr ⟨hs, hi⟩, hks⟩
  have hmemA : (j, an) ∈ candOf stg k0 (liveOn analysisI st.consumedA) :=
    mem_candOf.mpr ⟨mem_liveOn.mpr ⟨ha, hj⟩, hka⟩
  have hS : candOf stg k0 (liveOn surveyI st.consumedS) = [(i, sv)] :=
    eq_singleton_of_mem_of_length_le_one hmemS
      (le_trans (candOf_liveOn_sublist stg k0 surveyI st.consumedS).length_le (H1S k0))
  have hA : candOf stg k0 (liveOn analysisI st.consumedA) = [(j, an)] :=
    eq_singleton_of_mem_of_length_le_one hmemA
      (le_trans (candOf_liveOn_sublist stg k0 analysisI st.consumedA).length_le (H1A k0))
  rw [passStep_pairs_eq, List.mem_append]
  right
  apply List.mem_filterMap.mpr
  refine ⟨(i, sv), mem_liveOn.mpr ⟨hs, hi⟩, ?_⟩
  simp only [pairAt, hks, hS, hA]

theorem passStep_keeps_live {surveyI analysisI : List (Nat × PoleRecord)}
    (stg : Strategy) (st : MatchState) {i j : Nat} {sv an : PoleRecord}
    (hs : (i, sv) ∈ surveyI) (ha : (j, an) ∈ analysisI)
    (hfS : (surveyI.map Prod.fst).Nodup) (hfA : (analysisI.map Prod.fst).Nodup)
    (H2A : ∀ k q, q ∈ analysisI → keyOf stg sv = some k →
      keyOf stg q.2 = some k → q = (j, an))
    (H2S : ∀ k p, p ∈ surveyI → keyOf stg an = some k →
      keyOf stg p.2 = some k → p = (i, sv))
    (hnot : ¬ keyAgreeB stg sv an = true)
    (hi : i ∉ st.consumedS) (hj : j ∉ st.consumedA) :
    i ∉ (passStep surveyI analysisI stg st).consumedS ∧
      j ∉ (passStep surveyI analysisI stg st).consumedA := by
  constructor
  · rw [passStep_consumedS_eq]
    intro hmem
    rw [List.mem_append] at hmem
    rcases hmem with hold | hnew
    · exact hi hold
    · obtain ⟨pr, hpr, hpri⟩ := List.mem_map.mp hnew
      obtain ⟨p', hp', hpair⟩ := List.mem_filterMap.mp hpr
      obtain ⟨k', x', q', hk', hS', hA', hpr_eq⟩ := pairAt_some hpair
      have hp'i : p'.1 = i := by rw [hpr_eq] at hpri; exact hpri
      have hp'm : p' ∈ surveyI := liveOn_subset p' hp'
      have hp'e : p' = (i, sv) := fst_inj_of_fst_nodup hfS hp'm hs hp'i
      have hksv : keyOf stg sv = some k' := by
        have hx := hk'
        rw [hp'e] at hx
        exact hx
      have hq'c : q' ∈ candOf stg k' (liveOn analysisI st.consumedA) := by
        rw [hA']
        exact List.mem_singleton_self q'
      have hq'm : q' ∈ analysisI := liveOn_subset q' (candOf_subset q' hq'c)
      have hq'k : keyOf stg q'.2 = some k' := (mem_candOf.mp hq'c).2
      have hq'e : q' = (j, an) := H2A k' q' hq'm hksv hq'k
      apply hnot
      rw [keyAgreeB_iff]
      refine ⟨k', hksv, ?_⟩
      have hx := hq'k
      rw [hq'e] at hx
      exact hx
  · rw [passStep_consumedA_eq]
    intro hmem
    rw [List.mem_append] at hmem
    rcases hmem with hold | hnew
    · exact hj hold
    · obtain ⟨pr, hpr, hprj⟩ := List.mem_map.mp hnew
      obtain ⟨p', hp', hpair⟩ := List.mem_filterMap.mp hpr
      obtain ⟨k', x', q', hk', hS', hA', hpr_eq⟩ := pairAt_some hpair
      have hq'j : q'.1 = j := by rw [hpr_eq] at hprj; exact hprj
      have hq'c : q' ∈ candOf stg k' (liveOn analysisI st.consumedA) := by
        rw [hA']
        exact List.mem_singleton_self q'
      have hq'm : q' ∈ analysisI := liveOn_subset q' (candOf_subset q' hq'c)
      have hq'e : q' = (j, an) := fst_inj_of_fst_nodup hfA hq'm ha hq'j
      have hkan : keyOf stg an = some k' := by
        have hx := (mem_candOf.mp hq'c).2
        rw [hq'e] at hx
        exact hx
      have hp'm : p' ∈ surveyI := liveOn_subset p' hp'
      have hp'e : p' = (i, sv) := H2S k' p' hp'm hkan hk'
      apply hnot
      rw [keyAgreeB_iff]
      have hksv : keyOf stg sv = some k' := by
        have hx := hk'
        rw [hp'e] at hx
        exact hx
      exact ⟨k', hksv, hkan⟩

theorem first_match_main (survey analysis : List PoleRecord) (i j : Nat)
    (sv an : PoleRecord)
    (hs : (i, sv) ∈ withIdx survey) (ha : (j, an) ∈ withIdx analysis)
    (H1S : ∀ stg k, (candOf stg k (withIdx survey)).length ≤ 1)
    (H1A : ∀ stg k, (candOf stg k (withIdx analysis)).length ≤ 1)
    (H2A : ∀ stg k q, q ∈ withIdx analysis → keyOf stg sv = some k →
      keyOf stg q.2 = some k → q = (j, an))
    (H2S : ∀ stg k p, p ∈ withIdx survey → keyOf stg an = some k →
      keyOf stg p.2 = some k → p = (i, sv)) :
    ((∃ pr ∈ (matchAll survey analysis).pairs, pr.1 = (i, sv) ∧ pr.2.1 = (j, an)) ↔
      (firstAgree sv an).isSome) ∧
    (∀ pr ∈ (matchAll survey analysis).pairs, pr.1 = (i, sv) →
      pr.2.1 = (j, an) ∧ firstAgree sv an = some pr.2.2) := by
  obtain ⟨hmem, hndS, hndA⟩ := matchAll_inv survey analysis
  have hfS := withIdx_fst_nodup survey
  have hfA := withIdx_fst_nodup analysis
  have hsound : ∀ pr ∈ (matchAll survey analysis).pairs, pr.1 = (i, sv) →
      pr.2.1 = (j, an) ∧ keyAgreeB pr.2.2 sv an = true := by
    intro pr hpr hpr1
    obtain ⟨hprS, hprA, k, hk1, hk2⟩ := hmem pr hpr
    have hk1' : keyOf pr.2.2 sv = some k := by rw [hpr1] at hk1; exact hk1
    have hq : pr.2.1 = (j, an) := H2A pr.2.2 k pr.2.1 hprA hk1' hk2
    refine ⟨hq, ?_⟩
    rw [keyAgreeB_iff]
    refine ⟨k, hk1', ?_⟩
    have hx := hk2
    rw [hq] at hx
    exact hx
  by_cases hb1 : keyAgreeB .normalizedId sv an = true
  · obtain ⟨k0, hks, hka⟩ := (keyAgreeB_iff _ _ _).mp hb1
    have hpair : ((i, sv), (j, an), Strategy.normalizedId) ∈
        (matchAll survey analysis).pairs := by
      have he : matchAll survey analysis =
          List.foldl (fun st stg => passStep (withIdx survey) (withIdx analysis) stg st)
            (passStep (withIdx survey) (withIdx analysis) .normalizedId ⟨[], [], []⟩)
            [.numericId, .secondaryId] := rfl
      rw [he]
      exact foldl_pairs_mono _ _
        (passStep_pairs_of_agree _ _ hs ha (by simp [MatchState.consumedS])
          (by simp [MatchState.consumedA]) (H1S _) (H1A _) hks hka)
    have hfa : firstAgree sv an = some .normalizedId := by
      simp [firstAgree, strategies, List.find?, hb1]
    have huniq : ∀ pr ∈ (matchAll survey analysis).pairs, pr.1 = (i, sv) →
        pr = ((i, sv), (j, an), Strategy.normalizedId) := by
      intro pr hpr hpr1
      exact List.inj_on_of_nodup_map hndS hpr hpair (by rw [hpr1])
    refine ⟨⟨fun _ => by rw [hfa]; rfl, fun _ => ⟨_, hpair, rfl, rfl⟩⟩, ?_⟩
    intro pr hpr hpr1
    rw [huniq pr hpr hpr1]
    exact ⟨rfl, by rw [hfa]⟩
  · by_cases hb2 : keyAgreeB .numericId sv an = true
    · obtain ⟨k0, hks, hka⟩ := (keyAgreeB_iff _ _ _).mp hb2
      have hlive1 := passStep_keeps_live .normalizedId ⟨[], [], []⟩ hs ha hfS hfA
        (H2A _) (H2S _) hb1 (by simp [MatchState.consumedS])
        (by simp [MatchState.consumedA])
      have hpair : ((i, sv), (j, an), Strategy.numericId) ∈
          (matchAll survey analysis).pairs := by
        have he : matchAll survey analysis =
            List.foldl (fun st stg => passStep (withIdx survey) (withIdx analysis) stg st)
              (passStep (withIdx survey) (withIdx analysis) .numericId
                (passStep (withIdx survey) (withIdx analysis) .normalizedId ⟨[], [], []⟩))
              [.secondaryId] := rfl
        rw [he]
        exact foldl_pairs_mono _ _
          (passStep_pairs_of_agree _ _ hs ha hlive1.1 hlive1.2 (H1S _) (H1A _) hks hka)
      have hfa : firstAgree sv an = some .numericId := by
        simp [firstAgree, strategies, List.find?, hb1, hb2]
      have huniq : ∀ pr ∈ (matchAll survey analysis).pairs, pr.1 = (i, sv) →
          pr = ((i, sv), (j, an), Strategy.numericId) := by
        intro pr hpr hpr1
        exact List.inj_on_of_nodup_map hndS hpr hpair (by rw [hpr1])
      refine ⟨⟨fun _ => by rw [hfa]; rfl, fun _ => ⟨_, hpair, rfl, rfl⟩⟩, ?_⟩
      intro pr hpr hpr1
      rw [huniq pr hpr hpr1]
      exact ⟨rfl, by rw [hfa]⟩
    · by_cases hb3 : keyAgreeB .secondaryId sv an = true
      · obtain ⟨k0, hks, hka⟩ := (keyAgreeB_iff _ _ _).mp hb3
        have hlive1 := passStep_keeps_live .normalizedId ⟨[], [], []⟩ hs ha hfS hfA
          (H2A _) (H2S _) hb1 (by simp [MatchState.consumedS])
          (by simp [MatchState.consumedA])
        have hlive2 := passStep_keeps_live .numericId
          (passStep (withIdx survey) (withIdx analysis) .normalizedId ⟨[], [], []⟩)
          hs ha hfS hfA (H2A _) (H2S _) hb2 hlive1.1 hlive1.2
        have hpair : ((i, sv), (j, an), Strategy.secondaryId) ∈
            (matchAll survey analysis).pairs := by
          have he : matchAll survey analysis =
              passStep (withIdx survey) (withIdx analysis) .secondaryId
                (passStep (withIdx survey) (withIdx analysis) .numericId
                  (passStep (withIdx survey) (withIdx analysis) .normalizedId
                    ⟨[], [], []⟩)) := rfl
          rw [he]
          exact passStep_pairs_of_agree _ _ hs ha hlive2.1 hlive2.2
            (H1S _) (H1A _) hks hka
        have hfa : firstAgree sv an = some .secondaryId := by
          simp [firstAgree, strategies, List.find?, hb1, hb2, hb3]
        have huniq : ∀ pr ∈ (matchAll survey analysis).pairs, pr.1 = (i, sv) →
            pr = ((i, sv), (j, an), Strategy.secondaryId) := by
          intro pr hpr hpr1
          exact List.inj_on_of_nodup_map hndS hpr hpair (by rw [hpr1])
        refine ⟨⟨fun _ => by rw [hfa]; rfl, fun _ => ⟨_, hpair, rfl, rfl⟩⟩, ?_⟩
        intro pr hpr hpr1
        rw [huniq pr hpr hpr1]
        exact ⟨rfl, by rw [hfa]⟩
      · have hnopair : ∀ pr ∈ (matchAll survey analysis).pairs, pr.1 ≠ (i, sv) := by
          intro pr hpr hpr1
          have hag := (hsound pr hpr hpr1).2
          cases hstg : pr.2.2 <;> rw [hstg] at hag
          · exact hb1 hag
          · exact hb2 hag
          · exact hb3 hag
        have hfa : firstAgree sv an = none := by
          simp [firstAgree, strategies, List.find?, hb1, hb2, hb3]
        constructor
        · constructor
          · rintro ⟨pr, hpr, h1, _⟩
            exact absurd h1 (hnopair pr hpr)
          · intro hsome
            rw [hfa] at hsome
            simp at hsome
        · intro pr hpr hpr1
          exact absurd hpr1 (hnopair pr hpr)

/-- C1 (amended): whenever the Matcher pairs a survey record with an
analysis record, the matchedBy strategy yielded non-null equal key values
on both sides (unconditional soundness); when additionally every key value
identifies at most one record per side per strategy and the two records
are each other's only cross-side key matches, the pair is formed iff some
strategy yields non-null equal values on both sides, and matchedBy is the
first such strategy; in particular survey P-410620 and analysis 410620,
whose normalizedIds differ, pair via the numericId fallback with
matchedBy = numericId. -/
theorem first_match_pairing :
    (∀ (survey analysis : List PoleRecord),
      ∀ pr ∈ (matchAll survey analysis).pairs,
        ∃ k, keyOf pr.2.2 pr.1.2 = some k ∧ keyOf pr.2.2 pr.2.1.2 = some k) ∧
    (∀ (survey analysis : List PoleRecord) (i j : Nat) (sv an : PoleRecord),
      (i, sv) ∈ withIdx survey → (j, an) ∈ withIdx analysis →
      (∀ stg k, (candOf stg k (withIdx survey)).length ≤ 1) →
      (∀ stg k, (candOf stg k (withIdx analysis)).length ≤ 1) →
      (∀ stg k q, q ∈ withIdx analysis → keyOf stg sv = some k →
        keyOf stg q.2 = some k → q = (j, an)) →
      (∀ stg k p, p ∈ withIdx survey → keyOf stg an = some k →
        keyOf stg p.2 = some k → p = (i, sv)) →
      (((∃ pr ∈ (matchAll survey analysis).pairs,
          pr.1 = (i, sv) ∧ pr.2.1 = (j, an)) ↔ (firstAgree sv an).isSome) ∧
        (∀ pr ∈ (matchAll survey analysis).pairs, pr.1 = (i, sv) →
          pr.2.1 = (j, an) ∧ firstAgree sv an = some pr.2.2))) ∧
    ((matchAll surveyA analysisA).pairs.map
        (fun pr => (pr.1.1, pr.2.1.1, pr.2.2))) = [(0, 0, Strategy.numericId)] ∧
    mkNormalizedId "P-410620" ≠ mkNormalizedId "410620" ∧
    mkNumericId "P-410620" = some 410620 ∧ mkNumericId "410620" = some 410620 := by
  refine ⟨?_, ?_, by decide, by decide, by decide, by decide⟩
  · intro survey analysis pr hpr
    exact ((matchAll_inv survey analysis).1 pr hpr).2.2
  · intro survey analysis i j sv an hs ha h1s h1a h2a h2s
    exact first_match_main survey analysis i j sv an hs ha h1s h1a h2a h2s

/-- C1 counterexample: the claim's iff fails as stated.  In Scenario B the
survey record 410621 and the first analysis record 410621 yield equal
non-null normalizedId key values, yet the Matcher forms no pair at all
(the duplicate key blocks auto-pairing). -/
theorem first_match_pairing_counterexample :
    surveyB = [⟨.survey, "410621", "410621", some 410621, none, "40-3",
      none, none, ""⟩] ∧
    analysisB = [⟨.analysis, "410621", "410621", some 410621, none, "40-3",
      none, none, ""⟩,
      ⟨.analysis, "410621", "410621", some 410621, none, "40-3", none, none, ""⟩] ∧
    keyOf .normalizedId (⟨.survey, "410621", "410621", some 410621, none, "40-3",
      none, none, ""⟩ : PoleRecord) =
      keyOf .normalizedId (⟨.analysis, "410621", "410621", some 410621, none,
        "40-3", none, none, ""⟩ : PoleRecord) ∧
    (keyOf .normalizedId (⟨.survey, "410621", "410621", some 410621, none, "40-3",
      none, none, ""⟩ : PoleRecord)).isSome = true ∧
    (matchAll surveyB analysisB).pairs = [] := by decide

theorem first_match_pairing_witness :
    ((0, (⟨SourceKind.survey, "P-410620", "p410620", some 410620, none, "40-3",
        none, none, ""⟩ : PoleRecord)),
      (0, (⟨SourceKind.analysis, "410620", "410620", some 410620, none, "40-3",
        none, none, ""⟩ : PoleRecord)), Strategy.numericId).2.1 =
      (0, (⟨SourceKind.analysis, "410620", "410620", some 410620, none, "40-3",
        none, none, ""⟩ : PoleRecord)) ∧
    firstAgree
      ⟨SourceKind.survey, "P-410620", "p410620", some 410620, none, "40-3",
        none, none, ""⟩
      ⟨SourceKind.analysis, "410620", "410620", some 410620, none, "40-3",
        none, none, ""⟩ = some Strategy.numericId := by
  have h := (first_match_pairing.2.1 surveyA analysisA 0 0
    ⟨.survey, "P-410620", "p410620", some 410620, none, "40-3", none, none, ""⟩
    ⟨.analysis, "410620", "410620", some 410620, none, "40-3", none, none, ""⟩
    (by decide) (by decide)
    (fun stg k => le_trans (List.length_filter_le _ _) (by decide))
    (fun stg k => le_trans (List.length_filter_le _ _) (by decide))
    (fun stg k q hq _ _ => by
      have he : withIdx analysisA = [(0, ⟨.analysis, "410620", "410620",
          some 410620, none, "40-3", none, none, ""⟩)] := by decide
      rw [he] at hq
      exact List.mem_singleton.mp hq)
    (fun stg k p hp _ _ => by
      have he : withIdx surveyA = [(0, ⟨.survey, "P-410620", "p410620",
          some 410620, none, "40-3", none, none, ""⟩)] := by decide
      rw [he] at hp
      exact List.mem_singleton.mp hp)).2
  exact h ((0, ⟨.survey, "P-410620", "p410620", some 410620, none, "40-3",
      none, none, ""⟩),
    (0, ⟨.analysis, "410620", "410620", some 410620, none, "40-3",
      none, none, ""⟩), Strategy.numericId) (by decide) rfl

end CPS
